import Mathlib

/-!
Verification development for the autopen target-aggregation pipeline
(`core/aggregator.py`) and the declarative finding-extraction engine
(`core/parse_engine.py`).

The Python code is shallowly embedded: strings are `List Char` (wrapped into
`String` at the public boundaries), Python dicts are insertion-ordered
association lists, machine integers are `Nat`/`Int`, raising code returns
`Option`/`Except`, and calls into external libraries (the `socket` module,
`subprocess`, `yaml`, `json`, `jmespath`, `lxml`, `glob`, `open`) are modelled
as explicit oracle parameters whose outcomes are part of the input.
-/

/-! ## Generic list utilities -/

/-- Everything of `l` before the first occurrence of `c`, and everything after
it; `none` when `c` does not occur.  Models Python `s.split(c, 1)` guarded by
`if c in s`. -/
def splitFirstChar (c : Char) (l : List Char) : Option (List Char × List Char) :=
  if c ∈ l then some (l.takeWhile (fun x => x ≠ c), (l.dropWhile (fun x => x ≠ c)).tail)
  else none

/-- Split `l` at the first occurrence of the (non-empty) pattern `pat`;
`none` when `pat` does not occur.  Models `if pat in s: s.split(pat, 1)`. -/
def splitFirstSeq (pat : List Char) : List Char → Option (List Char × List Char)
  | [] => if pat.isPrefixOf ([] : List Char) then some ([], []) else none
  | c :: rest =>
    if pat.isPrefixOf (c :: rest) then some ([], (c :: rest).drop pat.length)
    else
      match splitFirstSeq pat rest with
      | some (pre, post) => some (c :: pre, post)
      | none => none

/-- Split on every occurrence of `c`, like Python `s.split(c)`:
`splitOnChar c [] = [[]]`, and separators at the ends produce empty pieces. -/
def splitOnChar (c : Char) : List Char → List (List Char)
  | [] => [[]]
  | x :: xs =>
    if x = c then [] :: splitOnChar c xs
    else
      match splitOnChar c xs with
      | [] => [[x]]
      | p :: ps => (x :: p) :: ps

/-- Join pieces with a single `'.'` between them, like `".".join(parts)`. -/
def joinDots (parts : List (List Char)) : List Char :=
  List.intercalate ['.'] parts

/-- Replace every (non-overlapping, leftmost-first) occurrence of `pat` by
`repl`, like Python `s.replace(pat, repl)`.  The fuel argument only bounds the
recursion; `fuel = l.length + 1` always suffices because `pat` is non-empty at
every call site, so each step strictly shortens the remaining suffix. -/
def replaceAllFuel : Nat → List Char → List Char → List Char → List Char
  | 0, _, _, l => l
  | fuel + 1, pat, repl, l =>
    match splitFirstSeq pat l with
    | none => l
    | some (pre, post) => pre ++ repl ++ replaceAllFuel fuel pat repl post

/-- The loop body of `_dedupe_preserve_order`: `seen` is the membership set,
and the returned list is the `out` accumulator (in order). -/
def dedupeGo {α : Type} [DecidableEq α] (seen : List α) : List α → List α
  | [] => []
  | x :: xs => if x ∈ seen then dedupeGo seen xs else x :: dedupeGo (x :: seen) xs

/-- `core/aggregator.py` `_dedupe_preserve_order`: keep the first occurrence of
each element, drop later duplicates. -/
def dedupe_preserve_order {α : Type} [DecidableEq α] (items : List α) : List α :=
  dedupeGo [] items

/-- Specification-side restatement of order-preserving deduplication, written
from the spec sentence "the first occurrence of any textual target wins its
position; later duplicates are discarded silently": keep the head, delete all
of its later occurrences, recurse. -/
def keepFirsts {α : Type} [DecidableEq α] : List α → List α
  | [] => []
  | x :: xs => x :: keepFirsts (xs.filter (fun y => y ≠ x))
termination_by l => l.length
decreasing_by
  simp only [List.length_cons]
  exact Nat.lt_succ_of_le (List.length_filter_le _ _)

/-! ## Character classes -/

/-- ASCII digit test: models the `octet_str.isascii() and octet_str.isdigit()`
guard of `ipaddress`'s octet parser. -/
def isDigitC (c : Char) : Bool :=
  48 ≤ c.toNat && c.toNat ≤ 57

/-- The whitespace stripped by Python `str.strip()` (ASCII portion: space,
tab, newline, carriage return, vertical tab, form feed; the exotic Unicode
space characters are not modelled). -/
def isSpaceC (c : Char) : Bool :=
  c = ' ' || c = '\t' || c = '\n' || c = '\r' || c = '\x0B' || c = '\x0C'

/-- Python `str.strip()` (both-ends whitespace strip). -/
def pyStrip (l : List Char) : List Char :=
  ((l.dropWhile isSpaceC).reverse.dropWhile isSpaceC).reverse

/-- String-level wrapper for `pyStrip`. -/
def pyStripStr (s : String) : String :=
  String.mk (pyStrip s.toList)

/-- Python `s.startswith("#")` on a character list. -/
def pyStartsWithHash : List Char → Bool
  | [] => false
  | c :: _ => c = '#'

/-- Decimal digit character for `n ≤ 9`. -/
def digitChar (n : Nat) : Char :=
  if n = 0 then '0' else if n = 1 then '1' else if n = 2 then '2'
  else if n = 3 then '3' else if n = 4 then '4' else if n = 5 then '5'
  else if n = 6 then '6' else if n = 7 then '7' else if n = 8 then '8' else '9'

/-- Decimal rendering of an IPv4 octet (correct for `n ≤ 999`; used with
`n ≤ 255`), matching Python `str(int)`. -/
def octetStr (n : Nat) : List Char :=
  if n < 10 then [digitChar n]
  else if n < 100 then [digitChar (n / 10), digitChar (n % 10)]
  else [digitChar (n / 100), digitChar (n / 10 % 10), digitChar (n % 10)]

/-- Decimal rendering of an arbitrary `Nat` (fuel-structural; `fuel = n + 1`
always suffices since the argument shrinks by a factor of ten each step). -/
def natDigitsAux : Nat → Nat → List Char
  | 0, _ => []
  | fuel + 1, n =>
    if n < 10 then [digitChar n]
    else natDigitsAux fuel (n / 10) ++ [digitChar (n % 10)]

/-- Python `str(n)` for an integer. -/
def intRepr (n : Int) : String :=
  if n < 0 then "-" ++ String.mk (natDigitsAux (n.natAbs + 1) n.natAbs)
  else String.mk (natDigitsAux (n.toNat + 1) n.toNat)

/-! ## IPv4 addresses (`ipaddress` module, IPv4 fragment)

In `expand_targets` every string handed to `ipaddress` has already had its
first `:` and everything after it removed (the port strip), so no colon ever
reaches the parsers and the IPv6 side of `ip_address` / `ip_network` is
unreachable; only the IPv4 fragment is embedded. -/

/-- `ipaddress`'s `_parse_octet`: 1–3 ASCII digits, no leading zero (except
`"0"` itself), value at most 255. -/
def parseOctet (l : List Char) : Option Nat :=
  if l.isEmpty then none
  else if l.length > 3 then none
  else if !(l.all isDigitC) then none
  else if l.length > 1 && l.head? = some '0' then none
  else
    let v := l.foldl (fun acc c => acc * 10 + (c.toNat - 48)) 0
    if v ≤ 255 then some v else none

/-- `ipaddress.ip_address` on a colon-free string: a dotted quad of exactly
four octets, returned as the address's numeric value. -/
def parse_ipv4 (l : List Char) : Option Nat :=
  match splitOnChar '.' l with
  | [p1, p2, p3, p4] =>
    match parseOctet p1, parseOctet p2, parseOctet p3, parseOctet p4 with
    | some a, some b, some c, some d => some (a * 16777216 + b * 65536 + c * 256 + d)
    | _, _, _, _ => none
  | _ => none

/-- `str(IPv4Address(n))`: canonical dotted-quad rendering. -/
def ipv4Chars (n : Nat) : List Char :=
  octetStr (n / 16777216) ++ '.' ::
    (octetStr (n / 65536 % 256) ++ '.' ::
      (octetStr (n / 256 % 256) ++ '.' :: octetStr (n % 256)))

/-- Prefix-length parser for `ip_network`: non-empty ASCII digit string with
value at most 32 (the netmask/host-mask spellings accepted by `ipaddress` are
not modelled; no slash ever reaches `ip_network` inside `expand_targets`, so
this arm is dead there anyway). -/
def parsePrefix (l : List Char) : Option Nat :=
  if l.isEmpty then none
  else if !(l.all isDigitC) then none
  else
    let v := l.foldl (fun acc c => acc * 10 + (c.toNat - 48)) 0
    if v ≤ 32 then some v else none

/-- `IPv4Network(addr/p, strict=False).hosts()` as printed strings: host bits
of `a` are masked off; for prefixes up to /30 the network and broadcast
addresses are excluded, a /31 yields both addresses, a /32 yields the single
address. -/
def hostsList (a p : Nat) : List (List Char) :=
  let size := 2 ^ (32 - p)
  let net := a / size * size
  if p ≥ 31 then (List.range size).map (fun i => ipv4Chars (net + i))
  else (List.range (size - 2)).map (fun i => ipv4Chars (net + 1 + i))

/-- The enumeration loop of the range branch: every address from `a` to `b`
inclusive, printed. -/
def rangeList (a b : Nat) : List (List Char) :=
  (List.range (b + 1 - a)).map (fun i => ipv4Chars (a + i))

/-! ## Target expander (`core/aggregator.py` `expand_targets`) -/

/-- Scheme strip: `if "://" in s: s = s.split("://", 1)[1]`. -/
def stripScheme (l : List Char) : List Char :=
  match splitFirstSeq [':', '/', '/'] l with
  | some (_, rest) => rest
  | none => l

/-- Path strip: `s = s.split("/", 1)[0]`. -/
def stripPath (l : List Char) : List Char :=
  l.takeWhile (fun x => x ≠ '/')

/-- Port strip: `if ":" in s: s = s.split(":", 1)[0]` (equal to the
unconditional take-before-first-colon). -/
def stripPort (l : List Char) : List Char :=
  l.takeWhile (fun x => x ≠ ':')

/-- The line after comment/blank filtering, scheme strip, path strip and port
strip — the string that the range/CIDR/address rules of `expand_targets`
inspect. -/
def processedOf (raw : List Char) : List Char :=
  stripPort (stripPath (stripScheme (pyStrip raw)))

/-- The IP-range branch of `expand_targets` (lines 52–72): on success the list
of addresses to emit (the loop then `continue`s), `none` on any fall-through
(no `-`, a `ValueError` from parsing, or `start > end`).  `ip_address` can
only return IPv4 here because the input is colon-free. -/
def tryRange (s : List Char) : Option (List (List Char)) :=
  match splitFirstChar '-' s with
  | none => none
  | some (left, right) =>
    match parse_ipv4 left with
    | none => none
    | some start =>
      let endOpt :=
        if '.' ∈ right then parse_ipv4 right
        else
          let base := splitOnChar '.' left
          if base.length ≠ 4 then none
          else parse_ipv4 (joinDots (base.take 3 ++ [right]))
      match endOpt with
      | none => none
      | some e => if start ≤ e then some (rangeList start e) else none

/-- The CIDR branch of `expand_targets` (lines 74–81): `ip_network(s,
strict=False)` and emission of every host address; `none` models the caught
`ValueError`.  Note the string reaching this branch inside `expand_targets`
never contains `/` (the path strip removed it), so only the slashless arm is
live there. -/
def tryCIDR (s : List Char) : Option (List (List Char)) :=
  match splitFirstChar '/' s with
  | none => (parse_ipv4 s).map (fun a => hostsList a 32)
  | some (addrPart, pfxPart) =>
    match parse_ipv4 addrPart, parsePrefix pfxPart with
    | some a, some p => some (hostsList a p)
    | _, _ => none

/-- The per-line body of the `expand_targets` loop: the list of strings the
iteration appends to `out`. -/
def expandLineChars (raw : List Char) : List (List Char) :=
  let s := pyStrip raw
  if s.isEmpty || pyStartsWithHash s then []
  else
    let s3 := stripPort (stripPath (stripScheme s))
    match tryRange s3 with
    | some ips => ips
    | none =>
      match tryCIDR s3 with
      | some ips => ips
      | none =>
        match parse_ipv4 s3 with
        | some ip => [ipv4Chars ip]
        | none => [s3]

/-- The `out` accumulator of `expand_targets` after the loop over all lines,
before deduplication. -/
def expandAllChars : List String → List (List Char)
  | [] => []
  | raw :: rest => expandLineChars raw.toList ++ expandAllChars rest

/-- `core/aggregator.py` `expand_targets`. -/
def expand_targets (lines : List String) : List String :=
  (dedupe_preserve_order (expandAllChars lines)).map String.mk

/-! ## Liveness prober (`core/aggregator.py` `fping_alive`) -/

/-- Outcome of the `subprocess.run(["bash", "-lc", "fping ..."], check=False)`
call.  With `check=False` a completed child never raises regardless of its
exit status — a missing `fping` binary makes `bash` exit 127 with empty
stdout, which is `completed []`.  Only a failure of `subprocess.run` itself
(e.g. `bash` missing from the system) is `raised`. -/
inductive SubprocOutcome where
  | raised
  | completed (stdoutLines : List String)

/-- `core/aggregator.py` `fping_alive`.  `tcpConnect80 h` models whether
`socket.create_connection((h, 80), timeout=1)` succeeds (the source catches
every exception from it and skips the host). -/
def fping_alive (hosts : List String) (outcome : SubprocOutcome)
    (tcpConnect80 : String → Bool) : List String :=
  if hosts.isEmpty then []
  else
    match outcome with
    | .completed lines =>
      dedupe_preserve_order (lines.filterMap (fun x =>
        let t := pyStripStr x
        if t = "" then none else some t))
    | .raised =>
      dedupe_preserve_order (hosts.filter (fun h => tcpConnect80 h))

/-! ## Python/JSON values (`core/parse_engine.py`)

Values flowing through the extraction engine are whatever `yaml.safe_load`,
`json.loads`, `jmespath.search` and `lxml` produce; they are modelled as this
JSON-like type.  Numbers are modelled as integers (float formatting is out of
scope).  A Python dict is an insertion-ordered association list. -/

inductive Json where
  | null
  | bool (b : Bool)
  | num (n : Int)
  | str (s : String)
  | arr (xs : List Json)
  | obj (kvs : List (String × Json))

/-- A finding record under construction: a Python dict. -/
abbrev Obj := List (String × Json)

/-- Python truthiness of the modelled values (`bool(v)`). -/
def truthy : Json → Bool
  | .null => false
  | .bool b => b
  | .num n => n != 0
  | .str s => s != ""
  | .arr xs => !xs.isEmpty
  | .obj kvs => !kvs.isEmpty

/-- Whether a value is a (Python) `str`. -/
def isStr : Json → Bool
  | .str _ => true
  | _ => false

/-- Python `a or b`. -/
def pyOr (a b : Json) : Json :=
  if truthy a then a else b

/-- The single-quote character, used by the engine's literal convention. -/
def sqChar : Char := Char.ofNat 39

/-- A single-quote string. -/
def sqStr : String := String.mk [sqChar]

mutual
/-- Python `repr` of a modelled value (string escaping inside `repr` is not
modelled; only the overall shape — in particular non-emptiness — matters to
the engine). -/
def pyRepr : Json → String
  | .null => "None"
  | .bool true => "True"
  | .bool false => "False"
  | .num n => intRepr n
  | .str s => sqStr ++ s ++ sqStr
  | .arr xs => "[" ++ pyReprList xs ++ "]"
  | .obj kvs => "\x7b" ++ pyReprKVs kvs ++ "\x7d"
def pyReprList : List Json → String
  | [] => ""
  | [x] => pyRepr x
  | x :: y :: xs => pyRepr x ++ ", " ++ pyReprList (y :: xs)
def pyReprKVs : List (String × Json) → String
  | [] => ""
  | [(k, v)] => sqStr ++ k ++ sqStr ++ ": " ++ pyRepr v
  | (k, v) :: kv :: xs => sqStr ++ k ++ sqStr ++ ": " ++ pyRepr v ++ ", " ++ pyReprKVs (kv :: xs)
end

/-- Python `str(v)`: a string renders verbatim, everything else as its
`repr`. -/
def pyStr (v : Json) : String :=
  match v with
  | .str s => s
  | _ => pyRepr v

/-- First-occurrence lookup in a dict, like `obj.get(k)` returning `None`
when absent. -/
def getVal : Obj → String → Option Json
  | [], _ => none
  | (k0, v) :: rest, k => if k0 = k then some v else getVal rest k

/-- `obj.get(k)` with `None` as the modelled default. -/
def getD (kvs : Obj) (k : String) : Json :=
  (getVal kvs k).getD .null

/-- `k in obj`. -/
def hasKey (kvs : Obj) (k : String) : Bool :=
  (getVal kvs k).isSome

/-- `obj[k] = v`: replace in place when the key exists (Python dicts keep the
original position), append otherwise. -/
def setKey : Obj → String → Json → Obj
  | [], k, v => [(k, v)]
  | (k0, v0) :: rest, k, v =>
    if k0 = k then (k0, v) :: rest else (k0, v0) :: setKey rest k v

/-- `obj.setdefault(k, v)`. -/
def setdefaultKey (kvs : Obj) (k : String) (v : Json) : Obj :=
  if hasKey kvs k then kvs else kvs ++ [(k, v)]

/-! ## Extraction engine (`core/parse_engine.py`) -/

/-- The run context: `ctx_global = {"run_id": run_root.name}` plus the clock.
`now` models `datetime.datetime.utcnow().isoformat()` (the only effectful
input of `_ensure_soft_schema`). -/
structure Ctx where
  run_id : String
  now : String

/-- The template placeholder text for the single context key, written with
escaped braces. -/
def runIdTemplate : String := "\x7b\x7brun_id\x7d\x7d"

/-- `_sub_literals`: substitute the run context into a literal.  The context
has the single key `run_id`, so the loop is one `str.replace`. -/
def sub_literals (s : String) (ctx : Ctx) : String :=
  String.mk (replaceAllFuel (s.toList.length + 1) runIdTemplate.toList ctx.run_id.toList s.toList)

/-- The quoted-literal test of `_eval_jmes`/`_eval_xpath`:
`isinstance(expr, str) and len(expr) >= 2 and expr[0] == expr[-1] == "'"`. -/
def isQuotedLit (s : String) : Bool :=
  s.toList.length ≥ 2 && s.toList.head? = some sqChar && s.toList.getLast? = some sqChar

/-- `expr[1:-1]`. -/
def unquoteLit (s : String) : String :=
  String.mk ((s.toList.drop 1).dropLast)

/-- An item produced by an lxml `xpath` call: an element node (which carries a
`.text` attribute) or a plain value such as a string. -/
inductive XItem where
  | elemNode (text : Json)
  | value (v : Json)

/-- The result shape of lxml `xpath`: a list of items, or a scalar. -/
inductive XmlRes where
  | lst (items : List XItem)
  | scalar (v : Json)

/-- An XML element handed around by the engine; its payload only serves to
identify the node to the oracles below. -/
abbrev XmlNode := Json

/-- Outcomes of the external-library calls made by `parse_and_merge`, supplied
as part of the input.  `Except.error ()` models the library call raising. -/
structure EngineEnv where
  /-- `glob.glob(str(run_root / pattern))`, in sorted-by-path file order. -/
  globFiles : String → List String
  /-- `open(path, ...)` plus line iteration; an exception on open. -/
  openFile : String → Except Unit (List String)
  /-- `json.loads(line)`. -/
  jsonLoads : String → Except Unit Json
  /-- `jmespath.search(expr, value)`. -/
  jmesSearch : String → Json → Except Unit Json
  /-- `lxml.etree.parse(path)` followed by `.getroot()`. -/
  etParse : String → Except Unit XmlNode
  /-- `root.xpath(record_xpath)`: the selected element nodes. -/
  xpathNodes : String → XmlNode → Except Unit (List XmlNode)
  /-- `elem.xpath(field_expr)`: a list-or-scalar result. -/
  xpathEval : String → XmlNode → Except Unit XmlRes

/-- `_eval_jmes`: quoted literals substitute the context; everything else is a
`jmespath.search` whose exceptions are swallowed into `None`.  A non-string
expression makes `jmespath.search` raise, likewise swallowed. -/
def eval_jmes (expr : Json) (record : Json) (ctx : Ctx) (env : EngineEnv) : Json :=
  match expr with
  | .str s =>
    if isQuotedLit s then .str (sub_literals (unquoteLit s) ctx)
    else
      match env.jmesSearch s record with
      | .ok v => v
      | .error _ => .null
  | _ => .null

/-- `_eval_xpath`: quoted literals substitute the context; otherwise an
`elem.xpath` call with exceptions swallowed into `None`; a list result yields
its first item (an element's `.text`, or the value itself), an empty list
yields `None`, a scalar passes through. -/
def eval_xpath (expr : Json) (elem : XmlNode) (ctx : Ctx) (env : EngineEnv) : Json :=
  match expr with
  | .str s =>
    if isQuotedLit s then .str (sub_literals (unquoteLit s) ctx)
    else
      match env.xpathEval s elem with
      | .error _ => .null
      | .ok (.lst []) => .null
      | .ok (.lst (.elemNode t :: _)) => t
      | .ok (.lst (.value v :: _)) => v
      | .ok (.scalar v) => v
  | _ => .null

/-- The `for k in ("url", "host", "ip", "domain")` loop of
`_ensure_soft_schema`: the first truthy value among the given keys. -/
def firstTruthyVal (o : Obj) : List String → Option Json
  | [] => none
  | k :: ks => if truthy (getD o k) then some (getD o k) else firstTruthyVal o ks

/-- Lines 37–38 of `_ensure_soft_schema`: stamp `run_id` and `ts`
(`datetime.datetime.utcnow().isoformat() + "Z"`). -/
def softStampStep (obj : Obj) (ctx : Ctx) : Obj :=
  setdefaultKey (setdefaultKey obj "run_id" (Json.str ctx.run_id)) "ts"
    (Json.str (ctx.now ++ "Z"))

/-- Lines 40–44: if `asset` is falsy, set it to the first truthy of
`url`/`host`/`ip`/`domain` (and `break`). -/
def softAssetStep (o : Obj) : Obj :=
  if truthy (getD o "asset") then o
  else
    match firstTruthyVal o ["url", "host", "ip", "domain"] with
    | some v => setKey o "asset" v
    | none => o

/-- Lines 46–48: if `summary` is falsy, set it to
`str((title or service or status) or "finding")`. -/
def softSummaryStep (o : Obj) : Obj :=
  if truthy (getD o "summary") then o
  else
    let title := pyOr (getD o "title") (pyOr (getD o "service") (getD o "status"))
    setKey o "summary" (Json.str (pyStr (pyOr title (Json.str "finding"))))

/-- Lines 50–51: `partial` is true iff `asset` or `summary` is *still* falsy
after the two fallback steps above. -/
def softPartialStep (o : Obj) : Obj :=
  setKey o "partial"
    (Json.bool (!((["asset", "summary"].filter (fun k => !truthy (getD o k))).isEmpty)))

/-- Lines 53–54: default `severity` when the key is absent. -/
def softSeverityStep (o : Obj) : Obj :=
  if hasKey o "severity" then o else setKey o "severity" (Json.str "unknown")

/-- `core/parse_engine.py` `_ensure_soft_schema`. -/
def ensure_soft_schema (obj : Obj) (ctx : Ctx) : Obj :=
  softSeverityStep (softPartialStep (softSummaryStep (softAssetStep (softStampStep obj ctx))))

/-- `core/parse_engine.py` `_emit`: complete the soft schema, then drop the
record unless `tool`, `asset` and `summary` are all truthy; `some` is the
record appended to `out_records`. -/
def emit (obj : Obj) (ctx : Ctx) : Option Obj :=
  let o := ensure_soft_schema obj ctx
  if !truthy (getD o "tool") || !truthy (getD o "asset") || !truthy (getD o "summary") then none
  else some o

/-- The per-dict-comprehension of the ndjson branch:
`{k: _eval_jmes(expr, itm, ctx) for k, expr in fields.items()}`; a non-dict
`fields` makes `.items()` raise. -/
def runFieldsJmes (fields : Json) (itm : Json) (ctx : Ctx) (env : EngineEnv) : Except Unit Obj :=
  match fields with
  | .obj kvs => .ok (kvs.map (fun kv => (kv.1, eval_jmes kv.2 itm ctx env)))
  | _ => .error ()

/-- Field mapping for the xml branch. -/
def runFieldsXpath (fields : Json) (elem : XmlNode) (ctx : Ctx) (env : EngineEnv) : Except Unit Obj :=
  match fields with
  | .obj kvs => .ok (kvs.map (fun kv => (kv.1, eval_xpath kv.2 elem ctx env)))
  | _ => .error ()

/-- The item loop of the ndjson branch: `None` items are skipped, each other
item is field-mapped and emitted. -/
def processItems (env : EngineEnv) (ctx : Ctx) (fields : Json) :
    List Json → List Obj → Except Unit (List Obj)
  | [], acc => .ok acc
  | itm :: rest, acc =>
    match itm with
    | .null => processItems env ctx fields rest acc
    | _ =>
      match runFieldsJmes fields itm ctx env with
      | .error e => .error e
      | .ok obj => processItems env ctx fields rest (acc ++ (emit obj ctx).toList)

/-- One physical line of an ndjson file: strip, skip blanks, `json.loads`
(failures skip the line), then the *unguarded* `jmespath.search(rec_expr,
raw)` whose exceptions propagate, then the item loop. -/
def processNdLine (env : EngineEnv) (ctx : Ctx) (recExpr fields : Json)
    (line : String) (acc : List Obj) : Except Unit (List Obj) :=
  let l := pyStripStr line
  if l = "" then .ok acc
  else
    match env.jsonLoads l with
    | .error _ => .ok acc
    | .ok raw =>
      match recExpr with
      | .str re =>
        match env.jmesSearch re raw with
        | .error e => .error e
        | .ok base =>
          let items := match base with | .arr xs => xs | v => [v]
          processItems env ctx fields items acc
      | _ => .error ()

/-- The line loop over one ndjson file. -/
def processNdLines (env : EngineEnv) (ctx : Ctx) (recExpr fields : Json) :
    List String → List Obj → Except Unit (List Obj)
  | [], acc => .ok acc
  | line :: rest, acc =>
    match processNdLine env ctx recExpr fields line acc with
    | .error e => .error e
    | .ok acc2 => processNdLines env ctx recExpr fields rest acc2

/-- One ndjson file: a failing `open` skips the file. -/
def processNdFile (env : EngineEnv) (ctx : Ctx) (recExpr fields : Json)
    (path : String) (acc : List Obj) : Except Unit (List Obj) :=
  match env.openFile path with
  | .error _ => .ok acc
  | .ok lines => processNdLines env ctx recExpr fields lines acc

/-- The file loop of the ndjson branch. -/
def processNdFiles (env : EngineEnv) (ctx : Ctx) (recExpr fields : Json) :
    List String → List Obj → Except Unit (List Obj)
  | [], acc => .ok acc
  | path :: rest, acc =>
    match processNdFile env ctx recExpr fields path acc with
    | .error e => .error e
    | .ok acc2 => processNdFiles env ctx recExpr fields rest acc2

/-- The element loop of the xml branch. -/
def processElems (env : EngineEnv) (ctx : Ctx) (fields : Json) :
    List XmlNode → List Obj → Except Unit (List Obj)
  | [], acc => .ok acc
  | elem :: rest, acc =>
    match runFieldsXpath fields elem ctx env with
    | .error e => .error e
    | .ok obj => processElems env ctx fields rest (acc ++ (emit obj ctx).toList)

/-- One xml file: a failing `ET.parse` skips the file, but the *unguarded*
`root.xpath(rx)` propagates its exceptions (including a non-string `rx`). -/
def processXmlFile (env : EngineEnv) (ctx : Ctx) (rx fields : Json)
    (path : String) (acc : List Obj) : Except Unit (List Obj) :=
  match env.etParse path with
  | .error _ => .ok acc
  | .ok root =>
    match rx with
    | .str rxs =>
      match env.xpathNodes rxs root with
      | .error e => .error e
      | .ok elems => processElems env ctx fields elems acc
    | _ => .error ()

/-- The file loop of the xml branch. -/
def processXmlFiles (env : EngineEnv) (ctx : Ctx) (rx fields : Json) :
    List String → List Obj → Except Unit (List Obj)
  | [], acc => .ok acc
  | path :: rest, acc =>
    match processXmlFile env ctx rx fields path acc with
    | .error e => .error e
    | .ok acc2 => processXmlFiles env ctx rx fields rest acc2

/-- The `yaml.safe_load(open(p, "rb"))` outcome for one rule file of
`parsers.d`.  The call is *not* inside a `try`, so `raised` aborts the whole
engine. -/
inductive LoadResult where
  | raised
  | loaded (v : Json)

/-- `meta.get(k, dflt)`. -/
def metaGet (kvs : List (String × Json)) (k : String) (dflt : Json) : Json :=
  (getVal kvs k).getD dflt

/-- Python `v == "s"` for a loaded value against a string literal. -/
def isStrVal (v : Json) (s : String) : Bool :=
  match v with
  | .str t => t = s
  | _ => false

/-- The loop body of `parse_and_merge` for one rule file: an unparsable file
raises (uncaught); `yaml.safe_load(...) or {}` normalizes falsy loads to the
empty dict; `.get` on a non-dict raises; an unrecognized `type` is skipped
(`continue`). -/
def runRule (env : EngineEnv) (ctx : Ctx) (pr : LoadResult) (acc : List Obj) :
    Except Unit (List Obj) :=
  match pr with
  | .raised => .error ()
  | .loaded v =>
    let meta := if truthy v then v else Json.obj []
    match meta with
    | .obj kvs =>
      let ptype := metaGet kvs "type" Json.null
      if isStrVal ptype "ndjson" then
        match metaGet kvs "glob" (Json.str "") with
        | .str pat =>
          processNdFiles env ctx (metaGet kvs "record_jmes" (Json.str "@"))
            (metaGet kvs "fields" (Json.obj [])) (env.globFiles pat) acc
        | _ => .error ()
      else if isStrVal ptype "xml" then
        match metaGet kvs "glob" (Json.str "") with
        | .str pat =>
          processXmlFiles env ctx (metaGet kvs "record_xpath" (Json.str ""))
            (metaGet kvs "fields" (Json.obj [])) (env.globFiles pat) acc
        | _ => .error ()
      else .ok acc
    | _ => .error ()

/-- The rule loop of `parse_and_merge`, threading the `out_records`
accumulator. -/
def runParsers (env : EngineEnv) (ctx : Ctx) :
    List LoadResult → List Obj → Except Unit (List Obj)
  | [], acc => .ok acc
  | p :: rest, acc =>
    match runRule env ctx p acc with
    | .error e => .error e
    | .ok acc2 => runParsers env ctx rest acc2

/-- `core/parse_engine.py` `parse_and_merge`: the sorted rule files (each with
its `yaml.safe_load` outcome) are processed in order; the result is the
accumulated `out_records` (which the source serializes one record per line,
returning its length), or the exception that escaped. -/
def parse_and_merge (parsers : List LoadResult) (env : EngineEnv) (ctx : Ctx) :
    Except Unit (List Obj) :=
  runParsers env ctx parsers []

/-! ## Concrete run instances used by counterexamples and witnesses -/

/-- A fixed run context (`run_root.name = "run-1"`, frozen clock). -/
def ctx0 : Ctx := ⟨"run-1", "2024-01-01T00:00:00"⟩

/-- jmespath plain-identifier lookup on a JSON value (what
`jmespath.search("host", record)` computes). -/
def jmesField (r : Json) (k : String) : Json :=
  match r with
  | .obj kvs => getD kvs k
  | _ => .null

/-- A well-formed ndjson rule: constant `tool`, `asset` from the record's
`host` field, constant `summary`. -/
def goodMeta : Json :=
  Json.obj
    [("type", Json.str "ndjson"),
     ("glob", Json.str "nuclei/*.ndjson"),
     ("fields", Json.obj
       [("tool", Json.str (sqStr ++ "nuclei" ++ sqStr)),
        ("asset", Json.str "host"),
        ("summary", Json.str (sqStr ++ "hit" ++ sqStr))])]

/-- A rule file that loads fine but has an unrecognized `type`. -/
def weirdMeta : Json := Json.obj [("type", Json.str "weird")]

/-- The single tool-output line present in the concrete run. -/
def sampleLine : String := "\x7b\"host\": \"10.0.0.5\"\x7d"

/-- A concrete filesystem/library environment: one ndjson output file holding
one JSON line `{"host": "10.0.0.5"}`; the jmespath oracle answers the identity
`@` and plain field lookups; no xml files exist. -/
def cenv : EngineEnv :=
  ⟨fun pat => if pat = "nuclei/*.ndjson" then ["nuclei/out.ndjson"] else [],
   fun p => if p = "nuclei/out.ndjson" then .ok [sampleLine] else .error (),
   fun s => if s = sampleLine then .ok (Json.obj [("host", Json.str "10.0.0.5")]) else .error (),
   fun e r => if e = "@" then .ok r else if e = "host" then .ok (jmesField r "host") else .error (),
   fun _ => .error (),
   fun _ _ => .error (),
   fun _ _ => .error ()⟩

/-- The finding the good rule extracts in `cenv`. -/
def goodFinding : Obj :=
  [("tool", Json.str "nuclei"), ("asset", Json.str "10.0.0.5"), ("summary", Json.str "hit"),
   ("run_id", Json.str "run-1"), ("ts", Json.str "2024-01-01T00:00:00Z"),
   ("partial", Json.bool false), ("severity", Json.str "unknown")]

/-- A mapped record whose `asset` must be synthesized from `host` while
`tool` and `summary` are present (the spec's own soft-schema example shape). -/
def c1Obj : Obj :=
  [("tool", Json.str "nmap"), ("host", Json.str "10.0.0.5"), ("summary", Json.str "Open port")]

/-- A mapped record whose `summary` arrived as a (truthy) number. -/
def c9Obj : Obj :=
  [("tool", Json.str "t"), ("asset", Json.str "a"), ("summary", Json.num 5)]

/-- A mapped record whose `summary` arrived falsy (the empty string). -/
def c9wObj : Obj := [("summary", Json.str "")]

/-! ## Deduplication lemmas -/

section DedupeLemmas

variable {α : Type} [DecidableEq α]

theorem keepFirsts_nil : keepFirsts ([] : List α) = [] := by
  rw [keepFirsts]

theorem keepFirsts_cons (x : α) (xs : List α) :
    keepFirsts (x :: xs) = x :: keepFirsts (xs.filter (fun y => y ≠ x)) := by
  rw [keepFirsts]

theorem keepFirsts_sublist_aux :
    ∀ (n : Nat) (l : List α), l.length ≤ n → (keepFirsts l).Sublist l := by
  intro n
  induction n with
  | zero =>
    intro l hl
    have hnil : l = [] := List.length_eq_zero.mp (Nat.le_zero.mp hl)
    subst hnil
    simp [keepFirsts_nil]
  | succ n ih =>
    intro l hl
    cases l with
    | nil => simp [keepFirsts_nil]
    | cons x xs =>
      rw [keepFirsts_cons]
      refine List.Sublist.cons₂ x ?_
      refine List.Sublist.trans (ih _ ?_) (List.filter_sublist xs)
      exact le_trans (List.length_filter_le _ _) (Nat.le_of_succ_le_succ hl)

theorem keepFirsts_sublist (l : List α) : (keepFirsts l).Sublist l :=
  keepFirsts_sublist_aux l.length l le_rfl

theorem mem_keepFirsts {x : α} {l : List α} (h : x ∈ keepFirsts l) : x ∈ l :=
  (keepFirsts_sublist l).subset h

theorem keepFirsts_nodup_aux :
    ∀ (n : Nat) (l : List α), l.length ≤ n → (keepFirsts l).Nodup := by
  intro n
  induction n with
  | zero =>
    intro l hl
    have hnil : l = [] := List.length_eq_zero.mp (Nat.le_zero.mp hl)
    subst hnil
    simp [keepFirsts_nil]
  | succ n ih =>
    intro l hl
    cases l with
    | nil => simp [keepFirsts_nil]
    | cons x xs =>
      rw [keepFirsts_cons, List.nodup_cons]
      constructor
      · intro hx
        have hmem := mem_keepFirsts hx
        rw [List.mem_filter] at hmem
        simp at hmem
      · refine ih _ ?_
        exact le_trans (List.length_filter_le _ _) (Nat.le_of_succ_le_succ hl)

theorem keepFirsts_nodup (l : List α) : (keepFirsts l).Nodup :=
  keepFirsts_nodup_aux l.length l le_rfl

theorem keepFirsts_eq_self_aux :
    ∀ (n : Nat) (l : List α), l.length ≤ n → l.Nodup → keepFirsts l = l := by
  intro n
  induction n with
  | zero =>
    intro l hl _
    have hnil : l = [] := List.length_eq_zero.mp (Nat.le_zero.mp hl)
    subst hnil
    simp [keepFirsts_nil]
  | succ n ih =>
    intro l hl hnd
    cases l with
    | nil => simp [keepFirsts_nil]
    | cons x xs =>
      rw [List.nodup_cons] at hnd
      have hfilter : xs.filter (fun y => y ≠ x) = xs := by
        refine List.filter_eq_self.mpr ?_
        intro a ha
        simp only [decide_eq_true_eq]
        intro he
        exact hnd.1 (he ▸ ha)
      rw [keepFirsts_cons, hfilter, ih xs (Nat.le_of_succ_le_succ hl) hnd.2]

theorem keepFirsts_eq_self {l : List α} (h : l.Nodup) : keepFirsts l = l :=
  keepFirsts_eq_self_aux l.length l le_rfl h

theorem dedupeGo_eq (l : List α) :
    ∀ seen, dedupeGo seen l = keepFirsts (l.filter (fun x => x ∉ seen)) := by
  induction l with
  | nil => intro seen; simp [dedupeGo, keepFirsts_nil]
  | cons x xs ih =>
    intro seen
    by_cases hx : x ∈ seen
    · rw [show dedupeGo seen (x :: xs) = dedupeGo seen xs by simp [dedupeGo, hx]]
      rw [ih seen]
      congr 1
      rw [List.filter_cons]
      simp [hx]
    · rw [show dedupeGo seen (x :: xs) = x :: dedupeGo (x :: seen) xs by simp [dedupeGo, hx]]
      rw [ih (x :: seen)]
      have hcons : (x :: xs).filter (fun a => a ∉ seen) = x :: xs.filter (fun a => a ∉ seen) := by
        simp [List.filter_cons, hx]
      have hfe : xs.filter (fun a => a ∉ x :: seen)
          = (xs.filter (fun a => a ∉ seen)).filter (fun y => y ≠ x) := by
        rw [List.filter_filter]
        refine List.filter_congr ?_
        intro a _
        simp only [List.mem_cons, not_or, decide_not, Bool.decide_and]
      rw [hcons, keepFirsts_cons, hfe]

theorem dedupe_eq_keepFirsts (l : List α) : dedupe_preserve_order l = keepFirsts l := by
  rw [dedupe_preserve_order, dedupeGo_eq]
  congr 1
  refine List.filter_eq_self.mpr ?_
  intro a _
  simp

theorem dedupe_sublist (l : List α) : (dedupe_preserve_order l).Sublist l := by
  rw [dedupe_eq_keepFirsts]; exact keepFirsts_sublist l

theorem dedupe_nodup (l : List α) : (dedupe_preserve_order l).Nodup := by
  rw [dedupe_eq_keepFirsts]; exact keepFirsts_nodup l

theorem dedupe_eq_self_of_nodup {l : List α} (h : l.Nodup) : dedupe_preserve_order l = l := by
  rw [dedupe_eq_keepFirsts]; exact keepFirsts_eq_self h

end DedupeLemmas

/-! ## Dict-operation lemmas -/

theorem getVal_setKey_self (o : Obj) (k : String) (v : Json) :
    getVal (setKey o k v) k = some v := by
  induction o with
  | nil => simp [setKey, getVal]
  | cons kv rest ih =>
    obtain ⟨k0, v0⟩ := kv
    by_cases h : k0 = k <;> simp [setKey, getVal, h, ih]

theorem getVal_setKey_ne (o : Obj) {k k' : String} (v : Json) (h : k' ≠ k) :
    getVal (setKey o k v) k' = getVal o k' := by
  have hne : ¬ k = k' := fun he => h he.symm
  induction o with
  | nil =>
    simp only [setKey, getVal]
    rw [if_neg hne]
  | cons kv rest ih =>
    obtain ⟨k0, v0⟩ := kv
    by_cases h0 : k0 = k
    · subst h0
      simp only [setKey, getVal, if_pos rfl]
      rw [if_neg hne, if_neg hne]
    · simp only [setKey, getVal, if_neg h0]
      by_cases h1 : k0 = k'
      · rw [if_pos h1, if_pos h1]
      · rw [if_neg h1, if_neg h1]
        exact ih

theorem getVal_append_ne (o : Obj) {k k' : String} (v : Json) (h : k' ≠ k) :
    getVal (o ++ [(k, v)]) k' = getVal o k' := by
  have hne : ¬ k = k' := fun he => h he.symm
  induction o with
  | nil =>
    simp only [List.nil_append, getVal]
    rw [if_neg hne]
  | cons kv rest ih =>
    obtain ⟨k0, v0⟩ := kv
    by_cases h0 : k0 = k'
    · simp only [List.cons_append, getVal, if_pos h0]
    · simp only [List.cons_append, getVal, if_neg h0]
      exact ih

theorem getVal_setdefault_ne (o : Obj) {k k' : String} (v : Json) (h : k' ≠ k) :
    getVal (setdefaultKey o k v) k' = getVal o k' := by
  rw [setdefaultKey]
  split
  · rfl
  · exact getVal_append_ne o v h

theorem getD_setKey_self (o : Obj) (k : String) (v : Json) : getD (setKey o k v) k = v := by
  rw [getD, getVal_setKey_self]; rfl

theorem getD_setKey_ne (o : Obj) {k k' : String} (v : Json) (h : k' ≠ k) :
    getD (setKey o k v) k' = getD o k' := by
  rw [getD, getVal_setKey_ne o v h]; rfl

theorem getD_setdefault_ne (o : Obj) {k k' : String} (v : Json) (h : k' ≠ k) :
    getD (setdefaultKey o k v) k' = getD o k' := by
  rw [getD, getVal_setdefault_ne o v h]; rfl

/-! ## String non-emptiness and `pyStr` lemmas -/

theorem toList_mk (l : List Char) : (String.mk l).toList = l := rfl

theorem toList_append (a b : String) : (a ++ b).toList = a.toList ++ b.toList := by
  cases a; cases b; rfl

theorem string_ne_empty_of_toList_cons {s : String} {c : Char} {l : List Char}
    (h : s.toList = c :: l) : s ≠ "" := by
  intro he
  rw [he] at h
  exact List.noConfusion h

theorem natDigitsAux_ne_nil (fuel n : Nat) : natDigitsAux (fuel + 1) n ≠ [] := by
  rw [natDigitsAux]
  split <;> simp

theorem intRepr_ne_empty (n : Int) : intRepr n ≠ "" := by
  rw [intRepr]
  split
  · refine string_ne_empty_of_toList_cons (c := '-')
      (l := natDigitsAux (n.natAbs + 1) n.natAbs) ?_
    rw [toList_append, toList_mk]
    rfl
  · obtain ⟨c, l, hcl⟩ := List.exists_cons_of_ne_nil (natDigitsAux_ne_nil n.toNat n.toNat)
    refine string_ne_empty_of_toList_cons (c := c) (l := l) ?_
    rw [toList_mk, hcl]

theorem pyStr_ne_empty : ∀ {v : Json}, truthy v = true → pyStr v ≠ "" := by
  intro v h
  match v with
  | .null => simp [truthy] at h
  | .bool b =>
    cases b
    · simp [truthy] at h
    · decide
  | .num n =>
    show intRepr n ≠ ""
    exact intRepr_ne_empty n
  | .str s =>
    show s ≠ ""
    simpa [truthy] using h
  | .arr xs =>
    refine string_ne_empty_of_toList_cons
      (c := '[') (l := (pyReprList xs).toList ++ "]".toList) ?_
    show (("[" ++ pyReprList xs) ++ "]").toList = _
    rw [toList_append, toList_append]
    rfl
  | .obj kvs =>
    refine string_ne_empty_of_toList_cons
      (c := '\x7b') (l := (pyReprKVs kvs).toList ++ "\x7d".toList) ?_
    show (("\x7b" ++ pyReprKVs kvs) ++ "\x7d").toList = _
    rw [toList_append, toList_append]
    rfl

/-! ## Soft-schema lemmas -/

theorem getD_assetStep_ne (o : Obj) {k : String} (h : k ≠ "asset") :
    getD (softAssetStep o) k = getD o k := by
  rw [softAssetStep]
  split
  · rfl
  · split
    · exact getD_setKey_ne o _ h
    · rfl

theorem getD_summaryStep_ne (o : Obj) {k : String} (h : k ≠ "summary") :
    getD (softSummaryStep o) k = getD o k := by
  rw [softSummaryStep]
  split
  · rfl
  · exact getD_setKey_ne o _ h

theorem getD_partialStep_ne (o : Obj) {k : String} (h : k ≠ "partial") :
    getD (softPartialStep o) k = getD o k := by
  rw [softPartialStep]
  exact getD_setKey_ne o _ h

theorem getD_severityStep_ne (o : Obj) {k : String} (h : k ≠ "severity") :
    getD (softSeverityStep o) k = getD o k := by
  rw [softSeverityStep]
  split
  · rfl
  · exact getD_setKey_ne o _ h

/-- After the summary fallback the `summary` value is truthy: a truthy
original survives, and a synthesized one is a string built from `pyStr` of a
truthy value or the literal `"finding"`. -/
theorem summaryStep_truthy (o : Obj) :
    truthy (getD (softSummaryStep o) "summary") = true := by
  rw [softSummaryStep]
  split
  · assumption
  · rw [getD_setKey_self]
    simp only [truthy, bne_iff_ne, ne_eq, decide_eq_true_eq]
    rw [pyOr]
    split
    · exact pyStr_ne_empty (by assumption)
    · intro he
      exact absurd (congrArg String.toList he) (by decide)

/-- When the original `summary` was falsy, the fallback installs a string. -/
theorem summaryStep_isStr (o : Obj) (h : truthy (getD o "summary") = false) :
    isStr (getD (softSummaryStep o) "summary") = true := by
  rw [softSummaryStep]
  split
  · rename_i ht
    rw [h] at ht
    exact absurd ht (by simp)
  · rw [getD_setKey_self]
    rfl

/-- The `partial` flag of the completed record reflects exactly whether
`asset` is still falsy (the `summary` clause of `missing` can never fire). -/
theorem ensure_partial_eq (obj : Obj) (ctx : Ctx) :
    getD (ensure_soft_schema obj ctx) "partial"
      = Json.bool (!truthy (getD (ensure_soft_schema obj ctx) "asset")) := by
  rw [ensure_soft_schema]
  set X := softSummaryStep (softAssetStep (softStampStep obj ctx)) with hX
  have hsum : truthy (getD X "summary") = true := summaryStep_truthy _
  have hL : getD (softSeverityStep (softPartialStep X)) "partial"
      = getD (softPartialStep X) "partial" := getD_severityStep_ne _ (by decide)
  have hR1 : getD (softSeverityStep (softPartialStep X)) "asset"
      = getD (softPartialStep X) "asset" := getD_severityStep_ne _ (by decide)
  have hR2 : getD (softPartialStep X) "asset" = getD X "asset" :=
    getD_partialStep_ne _ (by decide)
  rw [hL, hR1, hR2, softPartialStep, getD_setKey_self]
  by_cases ha : truthy (getD X "asset") = true
  · simp [List.filter_cons, ha, hsum]
  · have ha' : truthy (getD X "asset") = false := by
      simpa using ha
    simp [List.filter_cons, ha', hsum]

/-- Every record that passes `_emit`'s filter carries `partial = false`. -/
theorem emit_partial_false (obj : Obj) (ctx : Ctx) (f : Obj)
    (h : emit obj ctx = some f) : getD f "partial" = Json.bool false := by
  rw [emit] at h
  split at h
  · exact Option.noConfusion h
  · rename_i hc
    have hf : f = ensure_soft_schema obj ctx := by
      cases h
      rfl
    subst hf
    rw [ensure_partial_eq]
    simp only [Bool.not_eq_true, Bool.or_eq_false_iff, Bool.not_eq_false'] at hc
    rw [hc.1.2]
    rfl

/-- The completed `summary` is truthy (transfer of `summaryStep_truthy` to the
full completion). -/
theorem ensure_summary_truthy (obj : Obj) (ctx : Ctx) :
    truthy (getD (ensure_soft_schema obj ctx) "summary") = true := by
  rw [ensure_soft_schema]
  rw [getD_severityStep_ne _ (by decide), getD_partialStep_ne _ (by decide)]
  exact summaryStep_truthy _

/-- `_emit` discards a record exactly when `tool` or `asset` is falsy after
completion. -/
theorem emit_none_iff (obj : Obj) (ctx : Ctx) :
    emit obj ctx = none
      ↔ (truthy (getD (ensure_soft_schema obj ctx) "tool") = false
          ∨ truthy (getD (ensure_soft_schema obj ctx) "asset") = false) := by
  rw [emit]
  have hsum := ensure_summary_truthy obj ctx
  constructor
  · intro h
    split at h
    · rename_i hc
      rw [hsum] at hc
      simp only [Bool.not_true, Bool.or_false, Bool.or_eq_true, Bool.not_eq_true'] at hc
      exact hc
    · exact Option.noConfusion h
  · intro h
    have hc : (!truthy (getD (ensure_soft_schema obj ctx) "tool")
        || !truthy (getD (ensure_soft_schema obj ctx) "asset")
        || !truthy (getD (ensure_soft_schema obj ctx) "summary")) = true := by
      rcases h with h | h <;> simp [h]
    rw [if_pos hc]

/-- When the incoming record's `summary` was falsy, the completed record's
`summary` is a string (the synthesized one). -/
theorem ensure_summary_isStr (obj : Obj) (ctx : Ctx)
    (h : truthy (getD obj "summary") = false) :
    isStr (getD (ensure_soft_schema obj ctx) "summary") = true := by
  rw [ensure_soft_schema]
  rw [getD_severityStep_ne _ (by decide), getD_partialStep_ne _ (by decide)]
  apply summaryStep_isStr
  rw [getD_assetStep_ne _ (by decide)]
  rw [softStampStep, getD_setdefault_ne _ _ (by decide), getD_setdefault_ne _ _ (by decide)]
  exact h

/-! ## Rule-loop lemmas -/

/-- A rule file that loads to a dict with an unrecognized `type` is a
`continue`: it leaves the accumulator untouched. -/
theorem runRule_skip (env : EngineEnv) (ctx : Ctx) {v : Json}
    {kvs : List (String × Json)} (acc : List Obj)
    (h1 : (if truthy v then v else Json.obj []) = Json.obj kvs)
    (h2 : isStrVal (metaGet kvs "type" Json.null) "ndjson" = false)
    (h3 : isStrVal (metaGet kvs "type" Json.null) "xml" = false) :
    runRule env ctx (LoadResult.loaded v) acc = Except.ok acc := by
  rw [runRule, h1]
  simp only [h2, h3, Bool.false_eq_true, if_false]

/-- Removing an unrecognized-`type` rule from anywhere in the rule list does
not change the engine's result. -/
theorem runParsers_skip_middle (env : EngineEnv) (ctx : Ctx) {v : Json}
    {kvs : List (String × Json)}
    (h1 : (if truthy v then v else Json.obj []) = Json.obj kvs)
    (h2 : isStrVal (metaGet kvs "type" Json.null) "ndjson" = false)
    (h3 : isStrVal (metaGet kvs "type" Json.null) "xml" = false) :
    ∀ (pre post : List LoadResult) (acc : List Obj),
      runParsers env ctx (pre ++ LoadResult.loaded v :: post) acc
        = runParsers env ctx (pre ++ post) acc := by
  intro pre
  induction pre with
  | nil =>
    intro post acc
    simp only [List.nil_append]
    rw [runParsers, runRule_skip env ctx acc h1 h2 h3]
  | cons p rest ih =>
    intro post acc
    simp only [List.cons_append, runParsers]
    cases hr : runRule env ctx p acc with
    | error e => simp only [hr]
    | ok acc2 =>
      simp only [hr]
      exact ih post acc2

/-! ## Claims (part 1) -/

/-- Claim C1, counterexample: for the record `{tool: "nmap", host: "10.0.0.5",
summary: "Open port"}` the `asset` field is absent before completion and
synthesized from `host` by the fallback, the finding is emitted, and yet its
`partial` flag is `false` — contradicting "`partial` is true iff `asset` or
`summary` was synthesized by the soft-schema fallback". -/
theorem c1_counterexample :
    getVal c1Obj "asset" = none
    ∧ emit c1Obj ctx0 = some (ensure_soft_schema c1Obj ctx0)
    ∧ getD (ensure_soft_schema c1Obj ctx0) "asset" = Json.str "10.0.0.5"
    ∧ getD (ensure_soft_schema c1Obj ctx0) "partial" = Json.bool false :=
  ⟨rfl, rfl, rfl, rfl⟩

/-- Claim C1, amended: `partial` is computed *after* fallback completion — it
is true iff `asset` is still falsy once the fallbacks ran (`summary` is always
filled with a non-empty string, so it never contributes), and consequently
every finding that passes `_emit`'s filter has `partial = false`. -/
theorem c1_partial_after_completion (obj : Obj) (ctx : Ctx) :
    getD (ensure_soft_schema obj ctx) "partial"
      = Json.bool (!truthy (getD (ensure_soft_schema obj ctx) "asset"))
    ∧ (∀ f, emit obj ctx = some f → getD f "partial" = Json.bool false) :=
  ⟨ensure_partial_eq obj ctx, fun f h => emit_partial_false obj ctx f h⟩

/-- Witness for the amended C1 at a concrete emitted finding. -/
theorem c1_partial_after_completion_witness :
    emit c1Obj ctx0 = some (ensure_soft_schema c1Obj ctx0)
    ∧ getD (ensure_soft_schema c1Obj ctx0) "partial" = Json.bool false :=
  ⟨rfl, (c1_partial_after_completion c1Obj ctx0).2 _ rfl⟩

/-- Claim C2, counterexample: with a malformed rule file (whose
`yaml.safe_load` raises) listed before a well-formed ndjson rule, the engine
aborts with the exception instead of producing the well-formed rule's finding;
running with only the well-formed rule yields that finding. -/
theorem c2_counterexample :
    parse_and_merge [LoadResult.raised, LoadResult.loaded goodMeta] cenv ctx0 = Except.error ()
    ∧ parse_and_merge [LoadResult.loaded goodMeta] cenv ctx0 = Except.ok [goodFinding] :=
  ⟨rfl, rfl⟩

/-- Claim C2, amended: a rule file that *loads* (to a dict) but has a missing
or unrecognized `type` is skipped and the engine's result is exactly that of
running without it; a rule file whose YAML parsing raises, however, aborts the
whole engine. -/
theorem c2_unknown_type_rule_skipped (env : EngineEnv) (ctx : Ctx) (v : Json)
    (kvs : List (String × Json)) (pre post : List LoadResult)
    (h1 : (if truthy v then v else Json.obj []) = Json.obj kvs)
    (h2 : isStrVal (metaGet kvs "type" Json.null) "ndjson" = false)
    (h3 : isStrVal (metaGet kvs "type" Json.null) "xml" = false) :
    parse_and_merge (pre ++ LoadResult.loaded v :: post) env ctx
      = parse_and_merge (pre ++ post) env ctx := by
  rw [parse_and_merge, parse_and_merge]
  exact runParsers_skip_middle env ctx h1 h2 h3 pre post []

/-- Witness for the amended C2: appending an unrecognized-`type` rule to the
concrete good rule changes nothing. -/
theorem c2_unknown_type_rule_skipped_witness :
    ((if truthy weirdMeta then weirdMeta else Json.obj [])
      = Json.obj [("type", Json.str "weird")])
    ∧ parse_and_merge [LoadResult.loaded goodMeta, LoadResult.loaded weirdMeta] cenv ctx0
        = parse_and_merge [LoadResult.loaded goodMeta] cenv ctx0 :=
  ⟨rfl,
    c2_unknown_type_rule_skipped cenv ctx0 weirdMeta [("type", Json.str "weird")]
      [LoadResult.loaded goodMeta] [] rfl rfl rfl⟩

/-- Claim C3: because `subprocess.run` is called with `check=False`, a missing
`fping` binary (the shell completes with non-zero status and empty stdout)
does *not* raise, so the prober returns the empty list without attempting any
TCP connection — even when every host would accept a TCP handshake on port 80.
The TCP fallback runs only when the subprocess invocation itself raises. -/
theorem c3_no_tcp_fallback_when_fping_missing :
    fping_alive ["10.0.0.1"] (SubprocOutcome.completed []) (fun _ => true) = []
    ∧ fping_alive ["10.0.0.1"] SubprocOutcome.raised (fun _ => true) = ["10.0.0.1"] :=
  ⟨rfl, rfl⟩

/-- Claim C6: the expander's output is the raw per-line emission stream
deduplicated first-occurrence-wins (stated against the spec-side
`keepFirsts`), and on `["1.1.1.1", "2.2.2.2", "1.1.1.1"]` it yields exactly
`["1.1.1.1", "2.2.2.2"]`. -/
theorem c6_dedupe_first_occurrence :
    (∀ lines : List String,
      expand_targets lines = (keepFirsts (expandAllChars lines)).map String.mk)
    ∧ expand_targets ["1.1.1.1", "2.2.2.2", "1.1.1.1"] = ["1.1.1.1", "2.2.2.2"] :=
  ⟨fun lines => by rw [expand_targets, dedupe_eq_keepFirsts], rfl⟩

/-- Claim C8: the path-stripping step `s.split("/", 1)[0]` removes the CIDR
prefix length before the CIDR branch ever runs, so `10.0.0.0/30` expands to
the single target `10.0.0.0` instead of the claimed `{10.0.0.1, 10.0.0.2}`;
the second conjunct shows the (unreachable) CIDR branch itself would have
produced exactly the claimed host set on the unstripped string. -/
theorem c8_cidr_prefix_stripped_as_path :
    expand_targets ["10.0.0.0/30"] = ["10.0.0.0"]
    ∧ tryCIDR ("10.0.0.0/30".toList) = some ["10.0.0.1".toList, "10.0.0.2".toList] :=
  ⟨rfl, rfl⟩

/-- Claim C9, counterexample: a record arriving with the truthy non-string
`summary: 5` keeps that number through soft-schema completion and is emitted,
so the completed `summary` field is not a non-empty string. -/
theorem c9_counterexample :
    emit c9Obj ctx0 = some (ensure_soft_schema c9Obj ctx0)
    ∧ getD (ensure_soft_schema c9Obj ctx0) "summary" = Json.num 5
    ∧ isStr (getD (ensure_soft_schema c9Obj ctx0) "summary") = false :=
  ⟨rfl, rfl, rfl⟩

/-- Claim C9, amended: after completion `summary` is always truthy (and is a
string whenever the incoming `summary` was absent or falsy, via the
title/service/status/"finding" fallback), so a candidate is never discarded
because of `summary`: `_emit` drops a record exactly when `tool` or `asset` is
falsy after completion. -/
theorem c9_summary_truthy_discards_via_tool_asset (obj : Obj) (ctx : Ctx) :
    truthy (getD (ensure_soft_schema obj ctx) "summary") = true
    ∧ (emit obj ctx = none
        ↔ (truthy (getD (ensure_soft_schema obj ctx) "tool") = false
            ∨ truthy (getD (ensure_soft_schema obj ctx) "asset") = false))
    ∧ (truthy (getD obj "summary") = false
        → isStr (getD (ensure_soft_schema obj ctx) "summary") = true) :=
  ⟨ensure_summary_truthy obj ctx, emit_none_iff obj ctx,
    fun h => ensure_summary_isStr obj ctx h⟩

/-- Witness for the amended C9 at a record with a falsy `summary`. -/
theorem c9_summary_truthy_discards_via_tool_asset_witness :
    truthy (getD c9wObj "summary") = false
    ∧ truthy (getD (ensure_soft_schema c9wObj ctx0) "summary") = true
    ∧ isStr (getD (ensure_soft_schema c9wObj ctx0) "summary") = true :=
  ⟨rfl, (c9_summary_truthy_discards_via_tool_asset c9wObj ctx0).1,
    (c9_summary_truthy_discards_via_tool_asset c9wObj ctx0).2.2 rfl⟩

/-- Claim C10: on the TCP fallback path the returned list is a sublist of the
input (hence order-preserving and element-wise contained) and duplicate-free. -/
theorem c10_tcp_fallback_invariants (hosts : List String) (tcp : String → Bool) :
    (fping_alive hosts SubprocOutcome.raised tcp).Sublist hosts
    ∧ (fping_alive hosts SubprocOutcome.raised tcp).Nodup
    ∧ ∀ x, x ∈ fping_alive hosts SubprocOutcome.raised tcp → x ∈ hosts := by
  rw [fping_alive]
  split
  · exact ⟨List.nil_sublist hosts, List.nodup_nil, by simp⟩
  · have hsub : (dedupe_preserve_order (hosts.filter (fun h => tcp h))).Sublist hosts :=
      (dedupe_sublist _).trans (List.filter_sublist hosts)
    exact ⟨hsub, dedupe_nodup _, fun x hx => hsub.subset hx⟩

/-- Witness for C10 on a concrete host list with a duplicate. -/
theorem c10_tcp_fallback_invariants_witness :
    (fping_alive ["a", "b", "a"] SubprocOutcome.raised (fun _ => true)).Sublist ["a", "b", "a"]
    ∧ (fping_alive ["a", "b", "a"] SubprocOutcome.raised (fun _ => true)).Nodup
    ∧ "a" ∈ (["a", "b", "a"] : List String) :=
  ⟨(c10_tcp_fallback_invariants ["a", "b", "a"] (fun _ => true)).1,
    (c10_tcp_fallback_invariants ["a", "b", "a"] (fun _ => true)).2.1,
    (c10_tcp_fallback_invariants ["a", "b", "a"] (fun _ => true)).2.2 "a" (by decide)⟩

/-! ## Character and octet facts -/

set_option maxRecDepth 8192 in
theorem octetStr_all_digit : ∀ m, m < 256 → (octetStr m).all isDigitC = true := by decide

set_option maxRecDepth 8192 in
theorem octetStr_ne_nil : ∀ m, m < 256 → octetStr m ≠ [] := by decide

set_option maxRecDepth 8192 in
theorem parseOctet_octetStr : ∀ m, m < 256 → parseOctet (octetStr m) = some m := by decide

theorem mem_octetStr_digit {m : Nat} (hm : m < 256) {c : Char} (hc : c ∈ octetStr m) :
    isDigitC c = true := by
  have hall := octetStr_all_digit m hm
  rw [List.all_eq_true] at hall
  exact hall c hc

theorem isDigitC_bounds {c : Char} (h : isDigitC c = true) :
    48 ≤ c.toNat ∧ c.toNat ≤ 57 := by
  simp only [isDigitC, Bool.and_eq_true, decide_eq_true_eq] at h
  exact h

theorem isDigitC_ne {c : Char} (h : isDigitC c = true) (d : Char)
    (hd : d.toNat < 48 ∨ 57 < d.toNat) : ¬ c = d := by
  intro he
  obtain ⟨h48, h57⟩ := isDigitC_bounds h
  rw [he] at h48 h57
  omega

theorem isSpaceC_of_digit {c : Char} (h : isDigitC c = true) : isSpaceC c = false := by
  simp only [isSpaceC, Bool.or_eq_false_iff, decide_eq_false_iff_not]
  exact ⟨⟨⟨⟨⟨isDigitC_ne h ' ' (by decide), isDigitC_ne h '\t' (by decide)⟩,
    isDigitC_ne h '\n' (by decide)⟩, isDigitC_ne h '\x0d' (by decide)⟩,
    isDigitC_ne h '\x0B' (by decide)⟩, isDigitC_ne h '\x0C' (by decide)⟩

/-! ## Split/roundtrip lemmas for dotted quads -/

theorem splitOnChar_ne_nil (c : Char) (l : List Char) : splitOnChar c l ≠ [] := by
  induction l with
  | nil => simp [splitOnChar]
  | cons x xs ih =>
    rw [splitOnChar]
    split
    · simp
    · cases hs : splitOnChar c xs with
      | nil => exact absurd hs ih
      | cons p ps => simp

theorem splitOnChar_no {c : Char} {l : List Char} (h : c ∉ l) : splitOnChar c l = [l] := by
  induction l with
  | nil => rfl
  | cons x xs ih =>
    have hx : ¬ x = c := fun he => h (he ▸ List.mem_cons_self x xs)
    have hxs : c ∉ xs := fun hm => h (List.mem_cons_of_mem x hm)
    rw [splitOnChar, if_neg hx, ih hxs]

theorem splitOnChar_append {c : Char} {xs ys : List Char} (h : c ∉ xs) :
    splitOnChar c (xs ++ c :: ys) = xs :: splitOnChar c ys := by
  induction xs with
  | nil => simp [splitOnChar]
  | cons x rest ih =>
    have hx : ¬ x = c := fun he => h (he ▸ List.mem_cons_self x rest)
    have hrest : c ∉ rest := fun hm => h (List.mem_cons_of_mem x hm)
    rw [List.cons_append, splitOnChar, if_neg hx, ih hrest]

theorem octetStr_no_dot {m : Nat} (hm : m < 256) : '.' ∉ octetStr m := by
  intro hmem
  exact isDigitC_ne (mem_octetStr_digit hm hmem) '.' (by decide) rfl

theorem parse_ipv4_roundtrip {n : Nat} (hn : n < 4294967296) :
    parse_ipv4 (ipv4Chars n) = some n := by
  have h3 : n / 16777216 < 256 := by omega
  have h2 : n / 65536 % 256 < 256 := by omega
  have h1 : n / 256 % 256 < 256 := by omega
  have h0 : n % 256 < 256 := by omega
  rw [parse_ipv4, ipv4Chars]
  rw [splitOnChar_append (octetStr_no_dot h3), splitOnChar_append (octetStr_no_dot h2),
    splitOnChar_append (octetStr_no_dot h1), splitOnChar_no (octetStr_no_dot h0)]
  simp only [parseOctet_octetStr _ h3, parseOctet_octetStr _ h2, parseOctet_octetStr _ h1,
    parseOctet_octetStr _ h0]
  congr 1
  omega

theorem parseOctet_le {l : List Char} {v : Nat} (h : parseOctet l = some v) : v ≤ 255 := by
  rw [parseOctet] at h
  split at h
  · exact Option.noConfusion h
  · split at h
    · exact Option.noConfusion h
    · split at h
      · exact Option.noConfusion h
      · split at h
        · exact Option.noConfusion h
        · dsimp only at h
          split at h
          · rename_i hle
            cases h
            exact hle
          · exact Option.noConfusion h

theorem parse_ipv4_lt {l : List Char} {n : Nat} (h : parse_ipv4 l = some n) :
    n < 4294967296 := by
  rw [parse_ipv4] at h
  split at h
  · split at h
    · rename_i a b c d ha hb hc hd
      cases h
      have := parseOctet_le ha
      have := parseOctet_le hb
      have := parseOctet_le hc
      have := parseOctet_le hd
      omega
    · exact Option.noConfusion h
  · exact Option.noConfusion h

theorem parse_ipv4_split_four {l : List Char} {n : Nat} (h : parse_ipv4 l = some n) :
    ∃ p1 p2 p3 p4, splitOnChar '.' l = [p1, p2, p3, p4] := by
  rw [parse_ipv4] at h
  split at h
  · rename_i p1 p2 p3 p4 heq
    exact ⟨p1, p2, p3, p4, heq⟩
  · exact Option.noConfusion h

/-! ## Cleanliness of printed addresses and processed lines -/

theorem ipv4Chars_chars {n : Nat} (hn : n < 4294967296) {c : Char}
    (hc : c ∈ ipv4Chars n) : isDigitC c = true ∨ c = '.' := by
  have h3 : n / 16777216 < 256 := by omega
  have h2 : n / 65536 % 256 < 256 := by omega
  have h1 : n / 256 % 256 < 256 := by omega
  have h0 : n % 256 < 256 := by omega
  rw [ipv4Chars] at hc
  simp only [List.mem_append, List.mem_cons] at hc
  rcases hc with hc | hc | hc | hc | hc | hc | hc
  · exact Or.inl (mem_octetStr_digit h3 hc)
  · exact Or.inr hc
  · exact Or.inl (mem_octetStr_digit h2 hc)
  · exact Or.inr hc
  · exact Or.inl (mem_octetStr_digit h1 hc)
  · exact Or.inr hc
  · exact Or.inl (mem_octetStr_digit h0 hc)

theorem ipv4Chars_not_mem {n : Nat} (hn : n < 4294967296) (d : Char)
    (hd : (d.toNat < 48 ∧ d.toNat ≠ 46) ∨ 57 < d.toNat) : d ∉ ipv4Chars n := by
  intro hmem
  rcases ipv4Chars_chars hn hmem with hdig | hdot
  · obtain ⟨h48, h57⟩ := isDigitC_bounds hdig
    omega
  · rw [hdot] at hd
    revert hd
    decide

theorem dropWhile_eq_self_of {p : Char → Bool} {l : List Char}
    (h : ∀ c ∈ l, p c = false) : l.dropWhile p = l := by
  cases l with
  | nil => rfl
  | cons x xs =>
    rw [List.dropWhile_cons, if_neg]
    rw [h x (List.mem_cons_self x xs)]
    simp

theorem takeWhile_eq_self_of {p : Char → Bool} {l : List Char}
    (h : ∀ c ∈ l, p c = true) : l.takeWhile p = l := by
  induction l with
  | nil => rfl
  | cons x xs ih =>
    rw [List.takeWhile_cons, if_pos (h x (List.mem_cons_self x xs))]
    rw [ih (fun c hc => h c (List.mem_cons_of_mem x hc))]

theorem pyStrip_eq_self_of {l : List Char} (h : ∀ c ∈ l, isSpaceC c = false) :
    pyStrip l = l := by
  rw [pyStrip, dropWhile_eq_self_of h, dropWhile_eq_self_of, List.reverse_reverse]
  intro c hc
  exact h c (List.mem_reverse.mp hc)

theorem ipv4Chars_ne_nil (n : Nat) : ipv4Chars n ≠ [] := by
  rw [ipv4Chars]
  intro he
  rw [List.append_eq_nil] at he
  exact List.noConfusion he.2

theorem ipv4Chars_strip {n : Nat} (hn : n < 4294967296) :
    pyStrip (ipv4Chars n) = ipv4Chars n := by
  refine pyStrip_eq_self_of ?_
  intro c hc
  rcases ipv4Chars_chars hn hc with hdig | hdot
  · exact isSpaceC_of_digit hdig
  · rw [hdot]
    rfl

theorem ipv4Chars_no_hash {n : Nat} (hn : n < 4294967296) :
    pyStartsWithHash (ipv4Chars n) = false := by
  have h3 : n / 16777216 < 256 := by omega
  cases hoct : octetStr (n / 16777216) with
  | nil => exact absurd hoct (octetStr_ne_nil _ h3)
  | cons c cs =>
    have hcd : isDigitC c = true :=
      mem_octetStr_digit h3 (hoct ▸ List.mem_cons_self c cs)
    rw [ipv4Chars, hoct, List.cons_append, pyStartsWithHash]
    exact decide_eq_false (isDigitC_ne hcd '#' (by decide))

theorem mem_of_mem_takeWhile {p : Char → Bool} {l : List Char} {a : Char}
    (h : a ∈ l.takeWhile p) : a ∈ l :=
  (List.takeWhile_sublist p).subset h

theorem pred_of_mem_takeWhile {p : Char → Bool} {l : List Char} {a : Char}
    (h : a ∈ l.takeWhile p) : p a = true := by
  induction l with
  | nil => exact absurd h (List.not_mem_nil a)
  | cons x xs ih =>
    rw [List.takeWhile_cons] at h
    split at h
    · rcases List.mem_cons.mp h with he | hm
      · rename_i hp
        rw [he]
        exact hp
      · exact ih hm
    · exact absurd h (List.not_mem_nil a)

theorem not_mem_takeWhile_ne (c : Char) (l : List Char) :
    c ∉ l.takeWhile (fun x => x ≠ c) := by
  intro h
  have := pred_of_mem_takeWhile h
  simp at this

theorem processedOf_no_colon (raw : List Char) : ':' ∉ processedOf raw :=
  not_mem_takeWhile_ne ':' _

theorem processedOf_no_slash (raw : List Char) : '/' ∉ processedOf raw := by
  intro h
  have h1 : '/' ∈ stripPath (stripScheme (pyStrip raw)) := mem_of_mem_takeWhile h
  exact not_mem_takeWhile_ne '/' _ h1

theorem splitFirstSeq_none_of_head {c : Char} {pat l : List Char} (h : c ∉ l) :
    splitFirstSeq (c :: pat) l = none := by
  induction l with
  | nil =>
    rw [splitFirstSeq]
    simp [List.isPrefixOf]
  | cons d rest ih =>
    have hcd : ¬ c = d := fun he => h (he ▸ List.mem_cons_self d rest)
    have hrest : c ∉ rest := fun hm => h (List.mem_cons_of_mem d hm)
    rw [splitFirstSeq, if_neg, ih hrest]
    simp [List.isPrefixOf, hcd]

theorem stripScheme_eq_self {l : List Char} (h : ':' ∉ l) : stripScheme l = l := by
  rw [stripScheme, splitFirstSeq_none_of_head h]

theorem stripPath_eq_self {l : List Char} (h : '/' ∉ l) : stripPath l = l := by
  refine takeWhile_eq_self_of ?_
  intro c hc
  simp only [ne_eq, decide_eq_true_eq]
  intro he
  exact h (he ▸ hc)

theorem stripPort_eq_self {l : List Char} (h : ':' ∉ l) : stripPort l = l := by
  refine takeWhile_eq_self_of ?_
  intro c hc
  simp only [ne_eq, decide_eq_true_eq]
  intro he
  exact h (he ▸ hc)

/-! ## Branch lemmas for the expander -/

theorem tryRange_none_of_no_dash {s : List Char} (h : '-' ∉ s) : tryRange s = none := by
  rw [tryRange, splitFirstChar, if_neg h]

theorem tryCIDR_no_slash {s : List Char} (h : '/' ∉ s) :
    tryCIDR s = (parse_ipv4 s).map (fun a => hostsList a 32) := by
  rw [tryCIDR, splitFirstChar, if_neg h]

theorem hostsList_32 (a : Nat) : hostsList a 32 = [ipv4Chars a] := by
  rw [hostsList]
  norm_num
  rfl

theorem rangeList_ne_nil {a b : Nat} (h : a ≤ b) : rangeList a b ≠ [] := by
  rw [rangeList]
  intro he
  rw [List.map_eq_nil_iff, List.range_eq_nil] at he
  omega

theorem mem_rangeList {a b : Nat} {t : List Char} (h : t ∈ rangeList a b) :
    ∃ m, a ≤ m ∧ m ≤ b ∧ t = ipv4Chars m := by
  rw [rangeList] at h
  simp only [List.mem_map, List.mem_range] at h
  obtain ⟨i, hi, rfl⟩ := h
  exact ⟨a + i, Nat.le_add_right a i, by omega, rfl⟩
theorem tryRange_some {s : List Char} {out : List (List Char)}
    (h : tryRange s = some out) :
    ∃ a b, a ≤ b ∧ b < 4294967296 ∧ out = rangeList a b := by
  rw [tryRange] at h
  split at h
  · exact Option.noConfusion h
  · split at h
    · exact Option.noConfusion h
    · rename_i left right start hstart
      dsimp only at h
      split at h
      · exact Option.noConfusion h
      · rename_i e heq
        split at h
        · rename_i hle
          cases h
          refine ⟨start, e, hle, ?_, rfl⟩
          split at heq
          · exact parse_ipv4_lt heq
          · split at heq
            · exact Option.noConfusion heq
            · exact parse_ipv4_lt heq
        · exact Option.noConfusion h

/-! ## Fixed points and output shape of the per-line expansion -/

theorem isEmpty_false_of_ne_nil {l : List Char} (h : l ≠ []) : l.isEmpty = false := by
  cases l with
  | nil => exact absurd rfl h
  | cons x xs => rfl

theorem expandLine_of_clean_parts {t : List Char}
    (hstrip : pyStrip t = t) (hne : t ≠ []) (hhash : pyStartsWithHash t = false)
    (hcolon : ':' ∉ t) (hslash : '/' ∉ t) :
    expandLineChars t =
      (match tryRange t with
       | some ips => ips
       | none =>
         match tryCIDR t with
         | some ips => ips
         | none =>
           match parse_ipv4 t with
           | some ip => [ipv4Chars ip]
           | none => [t]) := by
  rw [expandLineChars]
  dsimp only
  rw [hstrip]
  rw [if_neg (by rw [isEmpty_false_of_ne_nil hne, hhash]; simp)]
  rw [stripScheme_eq_self hcolon, stripPath_eq_self hslash, stripPort_eq_self hcolon]

theorem expandLine_ipv4 {n : Nat} (hn : n < 4294967296) :
    expandLineChars (ipv4Chars n) = [ipv4Chars n] := by
  have hcolon : ':' ∉ ipv4Chars n := ipv4Chars_not_mem hn ':' (by decide)
  have hslash : '/' ∉ ipv4Chars n := ipv4Chars_not_mem hn '/' (by decide)
  have hdash : '-' ∉ ipv4Chars n := ipv4Chars_not_mem hn '-' (by decide)
  rw [expandLine_of_clean_parts (ipv4Chars_strip hn) (ipv4Chars_ne_nil n)
    (ipv4Chars_no_hash hn) hcolon hslash]
  rw [tryRange_none_of_no_dash hdash]
  rw [tryCIDR_no_slash hslash, parse_ipv4_roundtrip hn]
  simp [hostsList_32]

theorem expandLine_hostname_fix {t : List Char}
    (h1 : pyStrip t = t) (h2 : t ≠ []) (h3 : pyStartsWithHash t = false)
    (hcolon : ':' ∉ t) (hslash : '/' ∉ t)
    (hr : tryRange t = none) (hc : tryCIDR t = none) (hp : parse_ipv4 t = none) :
    expandLineChars t = [t] := by
  rw [expandLine_of_clean_parts h1 h2 h3 hcolon hslash, hr, hc, hp]

theorem expandLine_output_cases {raw t : List Char} (ht : t ∈ expandLineChars raw) :
    (∃ m, m < 4294967296 ∧ t = ipv4Chars m)
    ∨ (t = processedOf raw ∧ tryRange (processedOf raw) = none
        ∧ tryCIDR (processedOf raw) = none ∧ parse_ipv4 (processedOf raw) = none) := by
  rw [expandLineChars] at ht
  dsimp only at ht
  split at ht
  · exact absurd ht (List.not_mem_nil t)
  · split at ht
    · rename_i ips hr
      obtain ⟨a, b, hab, hb, rfl⟩ := tryRange_some hr
      obtain ⟨m, hm1, hm2, rfl⟩ := mem_rangeList ht
      exact Or.inl ⟨m, by omega, rfl⟩
    · rename_i hr
      split at ht
      · rename_i ips hc
        have hslash : '/' ∉ stripPort (stripPath (stripScheme (pyStrip raw))) :=
          processedOf_no_slash raw
        rw [tryCIDR_no_slash hslash] at hc
        cases hp : parse_ipv4 (stripPort (stripPath (stripScheme (pyStrip raw)))) with
        | none => rw [hp] at hc; exact Option.noConfusion hc
        | some a =>
          rw [hp] at hc
          simp only [Option.map_some'] at hc
          have hips : ips = hostsList a 32 := by
            cases hc
            rfl
          rw [hips, hostsList_32] at ht
          rcases List.mem_singleton.mp ht with rfl
          exact Or.inl ⟨a, parse_ipv4_lt hp, rfl⟩
      · rename_i hc
        split at ht
        · rename_i ip hp
          rcases List.mem_singleton.mp ht with rfl
          exact Or.inl ⟨ip, parse_ipv4_lt hp, rfl⟩
        · rename_i hp
          rcases List.mem_singleton.mp ht with rfl
          exact Or.inr ⟨rfl, hr, hc, hp⟩

theorem mem_expandAllChars {t : List Char} {ls : List String} (h : t ∈ expandAllChars ls) :
    ∃ raw, raw ∈ ls ∧ t ∈ expandLineChars raw.toList := by
  induction ls with
  | nil => exact absurd h (List.not_mem_nil t)
  | cons s rest ih =>
    rw [expandAllChars] at h
    rcases List.mem_append.mp h with h | h
    · exact ⟨s, List.mem_cons_self s rest, h⟩
    · obtain ⟨raw, hrm, hm⟩ := ih h
      exact ⟨raw, List.mem_cons_of_mem s hrm, hm⟩

theorem expandAll_map_mk {D : List (List Char)} (h : ∀ t ∈ D, expandLineChars t = [t]) :
    expandAllChars (D.map String.mk) = D := by
  induction D with
  | nil => rfl
  | cons t rest ih =>
    rw [List.map_cons, expandAllChars]
    rw [show (String.mk t).toList = t from rfl]
    rw [h t (List.mem_cons_self t rest), ih (fun u hu => h u (List.mem_cons_of_mem t hu))]
    rfl

theorem expandLine_fix_of_clean {raw t : List Char} (ht : t ∈ expandLineChars raw)
    (h1 : pyStrip t = t) (h2 : t ≠ []) (h3 : pyStartsWithHash t = false) :
    expandLineChars t = [t] := by
  rcases expandLine_output_cases ht with ⟨m, hm, rfl⟩ | ⟨heq, hr, hc, hp⟩
  · exact expandLine_ipv4 hm
  · subst heq
    exact expandLine_hostname_fix h1 h2 h3 (processedOf_no_colon raw)
      (processedOf_no_slash raw) hr hc hp

theorem expandLine_eq_branches {raw : List Char} (h1 : pyStrip raw ≠ [])
    (h2 : pyStartsWithHash (pyStrip raw) = false) :
    expandLineChars raw =
      (match tryRange (processedOf raw) with
       | some ips => ips
       | none =>
         match tryCIDR (processedOf raw) with
         | some ips => ips
         | none =>
           match parse_ipv4 (processedOf raw) with
           | some ip => [ipv4Chars ip]
           | none => [processedOf raw]) := by
  rw [expandLineChars]
  dsimp only
  rw [if_neg (by rw [isEmpty_false_of_ne_nil h1, h2]; simp)]
  rfl

theorem tryRange_some_ne_nil {s : List Char} {out : List (List Char)}
    (h : tryRange s = some out) : out ≠ [] := by
  obtain ⟨a, b, hab, _, rfl⟩ := tryRange_some h
  exact rangeList_ne_nil hab

theorem expandLine_ne_nil {raw : List Char} (h1 : pyStrip raw ≠ [])
    (h2 : pyStartsWithHash (pyStrip raw) = false) : expandLineChars raw ≠ [] := by
  rw [expandLine_eq_branches h1 h2]
  split
  · rename_i ips hr
    exact tryRange_some_ne_nil hr
  · split
    · rename_i ips hc
      rw [tryCIDR_no_slash (processedOf_no_slash raw)] at hc
      cases hp : parse_ipv4 (processedOf raw) with
      | none => rw [hp] at hc; exact Option.noConfusion hc
      | some a =>
        rw [hp] at hc
        simp only [Option.map_some'] at hc
        cases hc
        rw [hostsList_32]
        simp
    · split
      · simp
      · simp

theorem expandLine_verbatim {raw : List Char} (h1 : pyStrip raw ≠ [])
    (h2 : pyStartsWithHash (pyStrip raw) = false)
    (hr : tryRange (processedOf raw) = none) (hc : tryCIDR (processedOf raw) = none)
    (hp : parse_ipv4 (processedOf raw) = none) :
    expandLineChars raw = [processedOf raw] := by
  rw [expandLine_eq_branches h1 h2, hr, hc, hp]

/-! ## Claims (part 2) -/

/-- Claim C4, counterexample: the input line `":80"` is port-stripped to the
empty string and emitted verbatim as a (degenerate) hostname, but a second
expansion drops the empty string at the blank-line filter, so the two passes
produce different sets (`{""}` versus `∅`). -/
theorem c4_counterexample :
    expand_targets [":80"] = [""]
    ∧ expand_targets (expand_targets [":80"]) = []
    ∧ "" ∈ expand_targets [":80"]
    ∧ "" ∉ expand_targets (expand_targets [":80"]) :=
  ⟨rfl, rfl, by decide, by decide⟩

/-- Claim C4, amended: expansion is idempotent (even as a list, hence up to
set equality) provided every string of the first expansion survives line
cleanup unchanged — it equals its own whitespace strip, is non-empty, and does
not begin with `#`.  Outputs like `""` (from `":80"`) or strings with
stripped-away decorations violate this and break unrestricted idempotence. -/
theorem c4_idempotent_on_clean_outputs (lines : List String)
    (h : ∀ u ∈ expand_targets lines,
      pyStripStr u = u ∧ u ≠ "" ∧ pyStartsWithHash u.toList = false) :
    expand_targets (expand_targets lines) = expand_targets lines := by
  have hfix : ∀ t ∈ dedupe_preserve_order (expandAllChars lines), expandLineChars t = [t] := by
    intro t htD
    have hmem : String.mk t ∈ expand_targets lines := by
      rw [expand_targets]
      exact List.mem_map_of_mem _ htD
    obtain ⟨hu1, hu2, hu3⟩ := h _ hmem
    have h1 : pyStrip t = t := congrArg String.toList hu1
    have h2 : t ≠ [] := fun hnil => hu2 (by rw [hnil])
    have htAll : t ∈ expandAllChars lines := (dedupe_sublist _).subset htD
    obtain ⟨raw, _, htl⟩ := mem_expandAllChars htAll
    exact expandLine_fix_of_clean htl h1 h2 hu3
  conv_lhs => rw [expand_targets]
  have hD : expandAllChars (expand_targets lines)
      = dedupe_preserve_order (expandAllChars lines) := expandAll_map_mk hfix
  rw [hD, dedupe_eq_self_of_nodup (dedupe_nodup _)]
  rfl

/-- Witness for the amended C4 on a clean single-address input. -/
theorem c4_idempotent_on_clean_outputs_witness :
    pyStripStr "1.2.3.4" = "1.2.3.4"
    ∧ expand_targets ["1.2.3.4"] = ["1.2.3.4"]
    ∧ expand_targets (expand_targets ["1.2.3.4"]) = expand_targets ["1.2.3.4"] :=
  ⟨rfl, rfl, c4_idempotent_on_clean_outputs ["1.2.3.4"] (by decide)⟩

/-- Claim C5: a line that survives the blank/comment filter always contributes
at least one target (no error, no drop); in particular a line whose processed
form matches no range/CIDR/address rule is emitted verbatim as a hostname, and
`abc-def` comes back unchanged. -/
theorem c5_no_line_dropped :
    (∀ raw : List Char, pyStrip raw ≠ [] → pyStartsWithHash (pyStrip raw) = false →
      expandLineChars raw ≠ [])
    ∧ (∀ raw : List Char, pyStrip raw ≠ [] → pyStartsWithHash (pyStrip raw) = false →
        tryRange (processedOf raw) = none → tryCIDR (processedOf raw) = none →
        parse_ipv4 (processedOf raw) = none → expandLineChars raw = [processedOf raw])
    ∧ expand_targets ["abc-def"] = ["abc-def"] :=
  ⟨fun _ h1 h2 => expandLine_ne_nil h1 h2,
   fun _ h1 h2 hr hc hp => expandLine_verbatim h1 h2 hr hc hp,
   rfl⟩

/-- Witness for C5 at the concrete malformed range `abc-def`. -/
theorem c5_no_line_dropped_witness :
    pyStrip ("abc-def".toList) ≠ []
    ∧ pyStartsWithHash (pyStrip ("abc-def".toList)) = false
    ∧ expandLineChars ("abc-def".toList) ≠ []
    ∧ expandLineChars ("abc-def".toList) = [processedOf ("abc-def".toList)] :=
  ⟨by decide, rfl, c5_no_line_dropped.1 _ (by decide) rfl,
    c5_no_line_dropped.2.1 _ (by decide) rfl rfl rfl rfl⟩

/-- Claim C7: when the right bound of a range has no dot it is rebuilt from
the left address's first three octets, and a non-empty range is enumerated
inclusively; concretely `10.0.0.5-10` expands to the six addresses `10.0.0.5`
through `10.0.0.10`. -/
theorem c7_short_right_bound_range :
    (∀ (s left right : List Char) (a b : Nat),
      splitFirstChar '-' s = some (left, right) →
      '.' ∉ right →
      parse_ipv4 left = some a →
      parse_ipv4 (joinDots ((splitOnChar '.' left).take 3 ++ [right])) = some b →
      a ≤ b →
      tryRange s = some (rangeList a b))
    ∧ expand_targets ["10.0.0.5-10"] =
        ["10.0.0.5", "10.0.0.6", "10.0.0.7", "10.0.0.8", "10.0.0.9", "10.0.0.10"] := by
  constructor
  · intro s left right a b hsplit hdot ha hb hab
    rw [tryRange, hsplit]
    try dsimp only
    rw [ha]
    try dsimp only
    obtain ⟨p1, p2, p3, p4, h4⟩ := parse_ipv4_split_four ha
    rw [if_neg hdot]
    try dsimp only
    rw [if_neg (by rw [h4]; simp), hb]
    try dsimp only
    rw [if_pos hab]
  · rfl

/-- Witness for C7 at the concrete short-right-bound range. -/
theorem c7_short_right_bound_range_witness :
    splitFirstChar '-' ("10.0.0.5-10".toList) = some ("10.0.0.5".toList, "10".toList)
    ∧ parse_ipv4 ("10.0.0.5".toList) = some 167772165
    ∧ tryRange ("10.0.0.5-10".toList) = some (rangeList 167772165 167772170) :=
  ⟨rfl, rfl,
    c7_short_right_bound_range.1 _ _ _ _ _ rfl (by decide) rfl rfl (by decide)⟩
